import Mathlib

/-!
Verification development for the clang-tidy QualifiersOrder check
(clang-tidy/misc/QualifiersOrder.cpp).

The check is embedded shallowly:

* A source buffer is a `String`; a `SourceLocation` is an `Int` byte offset
  into that buffer.  Clang guarantees a NUL terminator one past the end of a
  memory buffer, so reading at offset `length` yields `'\0'`; reading at any
  other offset outside `[0, length]` is undefined behaviour, which the
  embedding surfaces as an `Except.error` result carrying the message
  `"UB: read outside buffer"`.  Failed `assert`s and `llvm_unreachable`
  likewise surface as `Except.error` values (an abort of the whole run in an
  assertions-enabled build).
* The lexer primitives (`Lexer::getLocForEndOfToken`,
  `Lexer::GetBeginningOfToken`, raw token kinds) are modelled by a raw
  tokenizer over the buffer: maximal identifier/number runs, `//` and
  `/* ... */` comments, and single punctuation characters.  Macro expansion
  and multi-file buffers are not modelled: every location is a plain offset
  into the single buffer.
* Loops from the C++ are written with an explicit fuel argument so that all
  definitions compute by `rfl`/`decide`; the fuel passed by each wrapper
  (`buf.length + 2`) exceeds the loop's maximal number of iterations, every
  iteration moving at least one byte through the buffer.
* `TypeLoc` mirrors clang's view: every node carries its local qualifier set
  (clang's `QualType::getLocalQualifiers`), its source range (clang
  `SourceRange`s are token ranges: first-token start, last-token start; the
  code under verification only ever reads the `begin` component), and a shape
  (named type, pointer/reference with sigil location, elaborated wrapper,
  template specialization with angle-bracket locations and argument list).
-/

/-- Length of the buffer as an `Int`, for offset arithmetic. -/
def strLen (buf : String) : Int := (buf.length : Int)

/-- Character at a byte offset.  Offset `length` reads the NUL terminator that
clang places after every memory buffer; offsets outside `[0, length]` read
memory that does not belong to the buffer, hence `none`. -/
def charAtS (buf : String) (loc : Int) : Option Char :=
  if loc < 0 then none
  else if loc < strLen buf then buf.data[loc.toNat]?
  else if loc = strLen buf then some (Char.ofNat 0)
  else none

/-- clang's `isWhitespace` (clang/Basic/CharInfo.h): space, tab, and the
vertical whitespace characters.  Note that NUL is not whitespace. -/
def isWhitespaceC (c : Char) : Bool :=
  c == ' ' || c == '\t' || c == '\n' || c == '\r' || c == '\x0b' || c == '\x0c'

/-- Raw identifier-ish character (letters, digits, underscore), used by the
raw-token model for maximal identifier runs. -/
def isIdentChar (c : Char) : Bool :=
  c.isAlphanum || c == '_'

/-- The text of the half-open byte range `[b, e)` of the buffer. -/
def extractStr (buf : String) (b e : Int) : String :=
  String.mk (((buf.data.drop b.toNat)).take (e - b).toNat)

/-- Length of the maximal identifier run starting at `loc`. -/
def identRunLength (buf : String) (loc : Int) : Int :=
  (((buf.data.drop loc.toNat)).takeWhile isIdentChar).length

/-- Number of bytes of a `/* ... */` comment counted from just after the
opening `/*`: up to and including the closing `*/`, or the whole rest of the
buffer when the comment is unterminated. -/
def blockCommentRest : List Char → Nat
  | [] => 0
  | a :: rest => if a = '*' ∧ rest.head? = some '/' then 2 else 1 + blockCommentRest rest

/-- When a `//` or `/* ... */` comment starts at `loc`, its length in bytes
(always at least 2); `none` otherwise. -/
def commentLength (buf : String) (loc : Int) : Option Int :=
  if charAtS buf loc = some '/' ∧ charAtS buf (loc + 1) = some '/' then
    some ((2 : Int) + ((((buf.data.drop (loc.toNat + 2))).takeWhile (fun c => c ≠ '\n')).length : Int))
  else if charAtS buf loc = some '/' ∧ charAtS buf (loc + 1) = some '*' then
    some ((2 : Int) + ((blockCommentRest ((buf.data.drop (loc.toNat + 2)))) : Int))
  else none

/-- Length of the raw token starting at `loc` (model of clang's
`Lexer::MeasureTokenLength` at a token start): a comment, a maximal
identifier run, or a single punctuation byte.  Zero at whitespace, at the
NUL terminator and outside the buffer. -/
def measureTokenFrom (buf : String) (loc : Int) : Int :=
  match charAtS buf loc with
  | none => 0
  | some c =>
    if isWhitespaceC c then 0
    else if c = Char.ofNat 0 then 0
    else
      match commentLength buf loc with
      | some n => n
      | none => if isIdentChar c then identRunLength buf loc else 1

/-- Model of `Lexer::getLocForEndOfToken(Loc, 0, ...)`: one past the end of
the raw token starting at `Loc`. -/
def getLocForEndOfToken (buf : String) (loc : Int) : Int :=
  loc + measureTokenFrom buf loc

/-- Fueled scan-back over an identifier run (see `getBeginningOfToken`). -/
def getBeginningOfTokenGo (buf : String) : Nat → Int → Int
  | 0, loc => loc
  | fuel + 1, loc =>
    match charAtS buf loc, charAtS buf (loc - 1) with
    | some c, some c2 =>
      if isIdentChar c ∧ isIdentChar c2 then getBeginningOfTokenGo buf fuel (loc - 1)
      else loc
    | _, _ => loc

/-- Model of `Lexer::GetBeginningOfToken`: from a position inside an
identifier run, the start of that run; any other position is returned
unchanged. -/
def getBeginningOfToken (buf : String) (loc : Int) : Int :=
  getBeginningOfTokenGo buf (buf.length + 2) loc

/-- Raw token kinds the check distinguishes (`getTokenKind` in the source
only ever compares against `tok::comment` and `tok::NUM_TOKENS`). -/
inductive TokKind where
  | comment
  | eof
  | other
deriving DecidableEq

/-- Model of the source's `getTokenKind`: find the beginning of the token
containing `loc` and classify the raw token there. -/
def getTokenKind (buf : String) (loc : Int) : TokKind :=
  let b := getBeginningOfToken buf loc
  match commentLength buf b with
  | some _ => TokKind.comment
  | none => if strLen buf ≤ b then TokKind.eof else TokKind.other

/-- Model of the source's `getAsString`: the text of the character range
`[b, e)`.  Reading a malformed range (negative length, or bytes outside the
buffer) is undefined behaviour. -/
def getAsStringE (buf : String) (sr : Int × Int) : Except String String :=
  if 0 ≤ sr.1 ∧ sr.1 ≤ sr.2 ∧ sr.2 ≤ strLen buf then Except.ok (extractStr buf sr.1 sr.2)
  else Except.error ("UB: invalid string range")

/-- Fueled body of the raw whitespace-skipping loops
(`while (isWhitespace(*FullSourceLoc(Loc, SM).getCharacterData())) Loc = Loc.getLocWithOffset(1);`). -/
def skipWhitespaceFGo (buf : String) : Nat → Int → Except String Int
  | 0, _ => Except.error ("fuel exhausted")
  | fuel + 1, loc =>
    match charAtS buf loc with
    | none => Except.error ("UB: read outside buffer")
    | some c =>
      if isWhitespaceC c then skipWhitespaceFGo buf fuel (loc + 1)
      else Except.ok loc

/-- The forward whitespace-skipping loop: reads the byte at each offset
unconditionally and advances while it is whitespace. -/
def skipWhitespaceF (buf : String) (loc : Int) : Except String Int :=
  skipWhitespaceFGo buf (buf.length + 2) loc

/-- Fueled body of `forwardSkipWhitespaceAndComments` from the source. -/
def forwardSkipGo (buf : String) : Nat → Int → Except String Int
  | 0, _ => Except.error ("fuel exhausted")
  | fuel + 1, loc =>
    match skipWhitespaceF buf loc with
    | Except.error e => Except.error e
    | Except.ok l =>
      if getTokenKind buf l == TokKind.comment then
        forwardSkipGo buf fuel (getLocForEndOfToken buf l)
      else Except.ok l

/-- Model of the source's `forwardSkipWhitespaceAndComments`: skip
whitespace, then fast-forward over comment tokens, repeatedly. -/
def forwardSkipWhitespaceAndComments (buf : String) (loc : Int) : Except String Int :=
  forwardSkipGo buf (buf.length + 2) loc

/-- Fueled body of `findToken` (forward token search over a range). -/
def findTokenGo (buf text : String) (endLoc : Int) : Nat → Int → Except String (Option (Int × Int))
  | 0, _ => Except.error ("fuel exhausted")
  | fuel + 1, loc =>
    if loc < endLoc then
      match skipWhitespaceF buf loc with
      | Except.error e => Except.error e
      | Except.ok loc2 =>
        let tokEnd := getLocForEndOfToken buf loc2
        match getAsStringE buf (loc2, tokEnd) with
        | Except.error e => Except.error e
        | Except.ok t =>
          if t == text then Except.ok (some (loc2, tokEnd))
          else if t.isEmpty then Except.error ("UB: StringRef.back on empty string")
          else if t.back == '>' && t.dropRight 1 == text then Except.ok (some (loc2, tokEnd))
          else findTokenGo buf text endLoc fuel tokEnd
    else Except.ok none

/-- Model of the source's `findToken`: scan the range `[sr.1, sr.2)` forward
token by token; a token matches when its spelling equals `text`, or —
unconditionally, there is no mode flag — when its spelling is `text`
immediately followed by a closing angle bracket. -/
def findToken (buf : String) (sr : Int × Int) (text : String) : Except String (Option (Int × Int)) :=
  findTokenGo buf text sr.2 (buf.length + 2) sr.1

/-- Fueled body of `findTokenBackwards`. -/
def findTokenBackwardsGo (buf text : String) : Nat → Int → Except String (Option (Int × Int))
  | 0, _ => Except.error ("fuel exhausted")
  | fuel + 1, loc =>
    match charAtS buf loc with
    | none => Except.error ("UB: read outside buffer")
    | some c =>
      if isWhitespaceC c then findTokenBackwardsGo buf text fuel (loc - 1)
      else
        let b := getBeginningOfToken buf loc
        let e := getLocForEndOfToken buf b
        match getAsStringE buf (b, e) with
        | Except.error er => Except.error er
        | Except.ok t =>
          if t == text then Except.ok (some (b, e))
          else findTokenBackwardsGo buf text fuel (b - 1)

/-- Model of the source's `findTokenBackwards`: step left over whitespace
(reading each byte unconditionally — there is no check against the start of
the buffer), delimit the token containing the current position, compare its
spelling exactly against `text`, and step one byte left of the token start on
a mismatch.  The source's `assert(Loc.isValid())` never fires in clang's
location arithmetic (adjacent raw location ids stay "valid"), so it is not a
bounds check and is modelled as a no-op. -/
def findTokenBackwards (buf : String) (loc : Int) (text : String) : Except String (Option (Int × Int)) :=
  findTokenBackwardsGo buf text (buf.length + 2) loc

/-! ## Type structure (clang `TypeLoc` view)

`getInnerPointeeLoc`, `getRangeBeforeType`, `getRangeAfterType`,
`findQualifier` and `getInnerTypeQualifiers` from the source operate on this
structure. -/

/-- Local qualifier set of a `QualType` (clang `Qualifiers`). -/
structure Quals where
  hasConst : Bool
  hasVolatile : Bool
  hasRestrict : Bool
deriving DecidableEq

mutual

/-- A type location: local qualifiers, source range (token range: start of
first token, start of last token — the check only reads the begin), shape. -/
inductive TypeLoc : Type where
  | mk : Quals → Int × Int → TypeShape → TypeLoc

/-- Shape of a type location. -/
inductive TypeShape : Type where
  | named : TypeShape
  | pointer : TypeLoc → Int → TypeShape
  | reference : TypeLoc → Int → TypeShape
  | elaborated : TypeLoc → TypeShape
  | templateSpec : Int → Int → List TemplateArgLoc → TypeShape

/-- A template argument location: a type argument with its `TypeLoc`, or a
non-type argument with the begin of its source range. -/
inductive TemplateArgLoc : Type where
  | typeArg : TypeLoc → TemplateArgLoc
  | nonTypeArg : Int → TemplateArgLoc

end

/-- Local qualifiers of the type at this location
(`TypeLoc::getType().getLocalQualifiers()`). -/
def TypeLoc.quals : TypeLoc → Quals
  | TypeLoc.mk q _ _ => q

/-- Source range of the type location (`TypeLoc::getSourceRange()`). -/
def TypeLoc.range : TypeLoc → Int × Int
  | TypeLoc.mk _ r _ => r

/-- Shape view of the type location (what the `getAs<...>` casts inspect,
after `getUnqualifiedLoc()`). -/
def TypeLoc.shape : TypeLoc → TypeShape
  | TypeLoc.mk _ _ s => s

/-- Begin of a template argument's source range
(`TemplateArgumentLoc::getSourceRange().getBegin()`). -/
def TemplateArgLoc.beginLoc : TemplateArgLoc → Int
  | TemplateArgLoc.typeArg tl => tl.range.1
  | TemplateArgLoc.nonTypeArg b => b

/-- Model of the source's `getInnerPointeeLoc`: unwrap pointer/reference
layers, remembering the sigil location of each layer unwrapped (so the
accumulator ends up holding the last, i.e. innermost, sigil); stop at the
first non-indirection node and return it together with the accumulator. -/
def getInnerPointeeLoc : TypeLoc → Option Int → TypeLoc × Option Int
  | TypeLoc.mk _ _ (TypeShape.pointer p s), _ => getInnerPointeeLoc p (some s)
  | TypeLoc.mk _ _ (TypeShape.reference p s), _ => getInnerPointeeLoc p (some s)
  | tl, acc => (tl, acc)

/-- Strip all pointer/reference layers (specification-side recursion used to
characterize `getInnerPointeeLoc`). -/
def stripIndirections : TypeLoc → TypeLoc
  | TypeLoc.mk _ _ (TypeShape.pointer p _) => stripIndirections p
  | TypeLoc.mk _ _ (TypeShape.reference p _) => stripIndirections p
  | tl => tl

/-- Unwrap a single elaborated-type layer (`ElaboratedTypeLoc::getNamedTypeLoc`)
if one is present. -/
def stripElaboration (tl : TypeLoc) : TypeLoc :=
  match tl.shape with
  | TypeShape.elaborated inner => inner
  | _ => tl

/-- The sigil locations of the indirection prefix, outermost first. -/
def sigilList : TypeLoc → List Int
  | TypeLoc.mk _ _ (TypeShape.pointer p s) => s :: sigilList p
  | TypeLoc.mk _ _ (TypeShape.reference p s) => s :: sigilList p
  | _ => []

/-- The last (innermost) pointer/reference sigil of the indirection prefix,
if any indirection is present. -/
def innermostSigil (tl : TypeLoc) : Option Int :=
  (sigilList tl).getLast?

/-- Number of pointer/reference layers (induction measure). -/
def pointerDepth : TypeLoc → Nat
  | TypeLoc.mk _ _ (TypeShape.pointer p _) => pointerDepth p + 1
  | TypeLoc.mk _ _ (TypeShape.reference p _) => pointerDepth p + 1
  | _ => 0

/-- Model of the source's `getRangeBeforeType`: from the declaration start to
the begin of the unqualified type's source range. -/
def getRangeBeforeType (tl : TypeLoc) (startLoc : Int) : Int × Int :=
  (startLoc, tl.range.1)

/-- Model of the source's `getRangeAfterType`: strip indirections (a valid
recorded sigil moves the region end to one byte before it, otherwise the end
stays at the passed `endLoc`, the declared name's start); unwrap one
elaboration layer; start the region one past the end of the inner type's
first token, except that a template specialization starts it one past its
closing angle bracket. -/
def getRangeAfterType (buf : String) (tl : TypeLoc) (endLoc : Int) : Int × Int :=
  let pr := getInnerPointeeLoc tl none
  let endLoc2 : Int :=
    match pr.2 with
    | some s => s - 1
    | none => endLoc
  let tl2 := stripElaboration pr.1
  let startLoc := getLocForEndOfToken buf tl2.range.1
  let startLoc2 : Int :=
    match tl2.shape with
    | TypeShape.templateSpec _ rAngle _ => rAngle + 1
    | _ => startLoc
  (startLoc2, endLoc2)

/-- Model of the source's `findQualifier`: search the left-of-type range
forward first; only if nothing matched there, search the right-of-type
range forward. -/
def findQualifier (buf : String) (lhs rhs : Int × Int) (qualifier : String) :
    Except String (Option (Int × Int)) :=
  match findToken buf lhs qualifier with
  | Except.error e => Except.error e
  | Except.ok (some r) => Except.ok (some r)
  | Except.ok none => findToken buf rhs qualifier

/-- Model of the source's `getInnerTypeQualifiers`: local qualifiers of the
node reached after stripping pointer/reference indirections only (the
elaboration wrapper is not unwrapped here). -/
def getInnerTypeQualifiers (tl : TypeLoc) : Quals :=
  (getInnerPointeeLoc tl none).1.quals

/-! ## The check itself -/

/-- `QualifiersOrder::QualifierAlignmentStyle`. -/
inductive QualifierAlignmentStyle where
  | QAS_None
  | QAS_Left
  | QAS_Right
deriving DecidableEq

/-- A primitive edit of the pre-edit buffer: a text insertion at an absolute
offset (`FixItHint::CreateInsertion` / `CreateInsertionFromRange`, the latter
modelled with the copied text), or a removal of a token-inclusive range
(`FixItHint::CreateRemoval`). -/
inductive Edit where
  | insert : Int → String → Edit
  | removeTokenRange : Int × Int → Edit
deriving DecidableEq

/-- A finding: diagnostic anchor, message, and the ordered edit plan. -/
structure Finding where
  anchor : Int
  message : String
  edits : List Edit
deriving DecidableEq

/-- The tail of `QualifiersOrder::checkQualifiers` after the policy switch:
read the byte before the insertion point (undefined behaviour when the
insertion point is at offset 0 of the buffer), optionally plan a leading
space, plan the insertion of the located qualifier text, optionally plan a
trailing space, and finally plan the removal, with its end brought back by
one byte to turn the token-inclusive removal range into the half-open
character range `[cr.1, cr.2)`. -/
def emitFinding (buf : String) (anchor insertLoc : Int) (maybeBefore maybeAfter : Bool)
    (cr : Int × Int) : Except String (Option Finding) :=
  match charAtS buf (insertLoc - 1) with
  | none => Except.error ("UB: read outside buffer")
  | some constFront =>
    let edits1 := if maybeBefore ∧ ¬ (isWhitespaceC constFront = true) then [Edit.insert insertLoc " "] else []
    let edits2 := [Edit.insert insertLoc (extractStr buf cr.1 cr.2)]
    match charAtS buf (cr.2 - 1) with
    | none => Except.error ("UB: read outside buffer")
    | some constBack =>
      let edits3 := if maybeAfter ∧ ¬ (isWhitespaceC constBack = true) then [Edit.insert insertLoc " "] else []
      Except.ok (some
        { anchor := anchor
          message := "wrong order of qualifiers"
          edits := edits1 ++ edits2 ++ edits3 ++ [Edit.removeTokenRange (cr.1, cr.2 - 1)] })

/-- Model of `QualifiersOrder::checkQualifiers`.  `r` is the declaration
range handed in by the dispatcher (begin of the declaration, begin of the
declared name).  Returns `Except.ok none` when no finding is emitted,
`Except.ok (some f)` for a finding with its edit plan, and `Except.error`
for a failed assertion, `llvm_unreachable`, or undefined behaviour. -/
def checkQualifiers (buf : String) (policy : QualifierAlignmentStyle) (tl : TypeLoc)
    (r : Int × Int) : Except String (Option Finding) :=
  let quals := getInnerTypeQualifiers tl
  if quals.hasConst = false then Except.ok none
  else
    let lhs := getRangeBeforeType tl r.1
    let rhs := getRangeAfterType buf tl r.2
    match findQualifier buf lhs rhs ("const") with
    | Except.error e => Except.error e
    | Except.ok none => Except.error ("assert failed: ConstR.isValid()")
    | Except.ok (some cr0) =>
      match forwardSkipWhitespaceAndComments buf cr0.2 with
      | Except.error e => Except.error e
      | Except.ok newEnd =>
        let cr : Int × Int := (cr0.1, newEnd)
        match policy with
        | QualifierAlignmentStyle.QAS_Left =>
          if cr.1 < r.1 ∨ cr.1 = r.1 then Except.ok none
          else emitFinding buf r.1 r.1 false true cr
        | QualifierAlignmentStyle.QAS_Right =>
          match skipWhitespaceF buf rhs.1 with
          | Except.error e => Except.error e
          | Except.ok insertLoc =>
            if ¬ (cr.1 < insertLoc) then Except.ok none
            else emitFinding buf r.1 insertLoc true false cr
        | QualifierAlignmentStyle.QAS_None =>
          Except.error ("llvm_unreachable: Invalid QualifierAlignmentStyle")

/-- Model of the template-specialization branch of `QualifiersOrder::check`:
walk the argument list left to right.  A non-last type argument's context
ends at the comma found by backward search from the next argument's begin
(`assert(SR.isValid())` on failure); after checking it, the next context
start is one past that comma with whitespace and comments skipped forward.
A non-type argument is skipped without touching the walk state.  The last
argument's context ends at the specialization's closing angle bracket. -/
def checkSpecArgsAux (buf : String) (policy : QualifierAlignmentStyle) :
    List TemplateArgLoc → Int → Int → Except String (List (Option Finding))
  | [], _, _ => Except.ok []
  | [TemplateArgLoc.nonTypeArg _], _, _ => Except.ok []
  | [TemplateArgLoc.typeArg tl], startLoc, rAngle =>
    match checkQualifiers buf policy tl (startLoc, rAngle) with
    | Except.error e => Except.error e
    | Except.ok f => Except.ok [f]
  | TemplateArgLoc.nonTypeArg _ :: next :: rest, startLoc, rAngle =>
    checkSpecArgsAux buf policy (next :: rest) startLoc rAngle
  | TemplateArgLoc.typeArg tl :: next :: rest, startLoc, rAngle =>
    match findTokenBackwards buf next.beginLoc (",") with
    | Except.error e => Except.error e
    | Except.ok none => Except.error ("assert failed: SR.isValid()")
    | Except.ok (some sr) =>
      match checkQualifiers buf policy tl (startLoc, sr.1) with
      | Except.error e => Except.error e
      | Except.ok f =>
        match forwardSkipWhitespaceAndComments buf (sr.1 + 1) with
        | Except.error e => Except.error e
        | Except.ok startLoc2 =>
          match checkSpecArgsAux buf policy (next :: rest) startLoc2 rAngle with
          | Except.error e => Except.error e
          | Except.ok fs => Except.ok (f :: fs)

/-- Entry of the template-specialization branch of `QualifiersOrder::check`:
unwrap indirections, require a template-specialization shape and a nonempty
argument list, and walk the arguments starting one past the opening angle
bracket. -/
def checkTemplateSpecLoc (buf : String) (policy : QualifierAlignmentStyle) (tsl : TypeLoc) :
    Except String (List (Option Finding)) :=
  let ptl := (getInnerPointeeLoc tsl none).1
  match ptl.shape with
  | TypeShape.templateSpec lAngle rAngle args =>
    if args.length = 0 then Except.ok []
    else checkSpecArgsAux buf policy args (lAngle + 1) rAngle
  | _ => Except.ok []

/-- Specification-side walk of a template specialization's argument list,
written to the claim's description: contexts are produced for type arguments
left to right; a non-last type argument's right boundary is the comma found
backwards from the next argument's begin, the last argument's right boundary
is the closing angle bracket; each following left boundary is one past the
previous resolved comma with whitespace/comments skipped; a non-type
argument produces no context and leaves the walk state unchanged while still
occupying its slot in the sequence. -/
def specTemplateArgContexts (buf : String) :
    List TemplateArgLoc → Int → Int → Except String (List (TypeLoc × (Int × Int)))
  | [], _, _ => Except.ok []
  | [TemplateArgLoc.nonTypeArg _], _, _ => Except.ok []
  | [TemplateArgLoc.typeArg tl], startLoc, rAngle => Except.ok [(tl, (startLoc, rAngle))]
  | TemplateArgLoc.nonTypeArg _ :: next :: rest, startLoc, rAngle =>
    specTemplateArgContexts buf (next :: rest) startLoc rAngle
  | TemplateArgLoc.typeArg tl :: next :: rest, startLoc, rAngle =>
    match findTokenBackwards buf next.beginLoc (",") with
    | Except.error e => Except.error e
    | Except.ok none => Except.error ("assert failed: SR.isValid()")
    | Except.ok (some sr) =>
      match forwardSkipWhitespaceAndComments buf (sr.1 + 1) with
      | Except.error e => Except.error e
      | Except.ok startLoc2 =>
        match specTemplateArgContexts buf (next :: rest) startLoc2 rAngle with
        | Except.error e => Except.error e
        | Except.ok ctxs => Except.ok ((tl, (startLoc, sr.1)) :: ctxs)

/-- Run `checkQualifiers` over a list of contexts, stopping at the first
error, and collect the per-context outcomes. -/
def runContexts (buf : String) (policy : QualifierAlignmentStyle) :
    List (TypeLoc × (Int × Int)) → Except String (List (Option Finding))
  | [] => Except.ok []
  | c :: rest =>
    match checkQualifiers buf policy c.1 c.2 with
    | Except.error e => Except.error e
    | Except.ok f =>
      match runContexts buf policy rest with
      | Except.error e => Except.error e
      | Except.ok fs => Except.ok (f :: fs)

/-- `ClangTidyCheck` options lookup (`Options.get(LocalName, Default)`),
modelled over an association list of configured options. -/
def optionsGet (opts : List (String × String)) (key dflt : String) : String :=
  match opts.lookup key with
  | some v => v
  | none => dflt

/-- Model of the `QualifiersOrder` constructor: the configured
`QualifierAlignment` string (default `"Left"`) maps to `QAS_Right` exactly
when it equals `"Right"`, and to `QAS_Left` in every other case. -/
def qualifiersOrderConstruct (opts : List (String × String)) : QualifierAlignmentStyle :=
  if optionsGet opts ("QualifierAlignment") ("Left") == "Right" then
    QualifierAlignmentStyle.QAS_Right
  else QualifierAlignmentStyle.QAS_Left

/-! ## Concrete declaration fixtures used by witnesses and counterexamples

Offsets refer to the accompanying buffer; each buffer starts with a newline
so that the declaration does not begin at offset 0 of the file (the check
reads the byte before the insertion point, so a declaration at offset 0
would read before the buffer). -/

/-- Qualifier set containing exactly `const`. -/
def qualsConst : Quals := ⟨true, false, false⟩

/-- Empty qualifier set. -/
def qualsNone : Quals := ⟨false, false, false⟩

/-- Buffer for `int const x;` (qualifier written right of the type). -/
def bufIntConstX : String := "\nint const x;"

/-- Type location of `int const` in `bufIntConstX`: a named type at offset 1
whose local qualifiers contain `const`. -/
def tlIntConstX : TypeLoc := TypeLoc.mk qualsConst (1, 1) TypeShape.named

/-- Buffer for `const int x;` (qualifier written left of the type). -/
def bufConstIntX : String := "\nconst int x;"

/-- Type location of `const int` in `bufConstIntX`: a named type at offset 7
whose local qualifiers contain `const`. -/
def tlConstIntX : TypeLoc := TypeLoc.mk qualsConst (7, 7) TypeShape.named

/-- A named type at offset 7 with no qualifiers at all (same buffer as
`bufConstIntX`, used to show that the word `const` in the text alone never
triggers the check). -/
def tlNoQuals : TypeLoc := TypeLoc.mk qualsNone (7, 7) TypeShape.named

/-- Buffer for `const int* p;` (pointer declarator). -/
def bufConstIntPtr : String := "\nconst int* p;"

/-- Type location of `const int*` in `bufConstIntPtr`: pointer with sigil at
offset 10 around a `const`-qualified named pointee at offset 7. -/
def tlConstIntPtr : TypeLoc :=
  TypeLoc.mk qualsNone (7, 10) (TypeShape.pointer (TypeLoc.mk qualsConst (7, 7) TypeShape.named) 10)

/-- Buffer for `int x;` — no `const` anywhere in the text. -/
def bufIntX : String := "\nint x;"

/-- A type location over `bufIntX` whose qualifier set nevertheless claims
`const` (structural and textual views disagree). -/
def tlMismatch : TypeLoc := TypeLoc.mk qualsConst (1, 1) TypeShape.named

/-- Buffer for `ns::T const x;` (elaborated type). -/
def bufElabConst : String := "\nns::T const x;"

/-- Type location of `const ns::T` spelled `ns::T const`: clang attaches the
`const` to the `QualType` of the elaborated node; the named type underneath
carries no local qualifiers. -/
def tlElabConst : TypeLoc :=
  TypeLoc.mk qualsConst (1, 5) (TypeShape.elaborated (TypeLoc.mk qualsNone (5, 5) TypeShape.named))

/-- Buffer for `vector<int const, char> v;`. -/
def bufVector : String := "\nvector<int const, char> v;"

/-- Type location of the first template argument `int const` in `bufVector`. -/
def tlVecInt : TypeLoc := TypeLoc.mk qualsConst (8, 8) TypeShape.named

/-- Type location of the second template argument `char` in `bufVector`. -/
def tlVecChar : TypeLoc := TypeLoc.mk qualsNone (19, 19) TypeShape.named

/-- Argument list of the `vector<int const, char>` specialization. -/
def vectorArgs : List TemplateArgLoc :=
  [TemplateArgLoc.typeArg tlVecInt, TemplateArgLoc.typeArg tlVecChar]

/-! ## Basic lemmas about the buffer model -/


theorem charAtS_some_bounds {buf : String} {loc : Int} {c : Char}
    (h : charAtS buf loc = some c) : 0 ≤ loc ∧ loc ≤ strLen buf := by
  unfold charAtS at h
  by_cases h0 : loc < 0
  · rw [if_pos h0] at h
    exact absurd h (by simp)
  · rw [if_neg h0] at h
    by_cases h1 : loc < strLen buf
    · exact ⟨by omega, by omega⟩
    · rw [if_neg h1] at h
      by_cases h2 : loc = strLen buf
      · exact ⟨by omega, by omega⟩
      · rw [if_neg h2] at h
        exact absurd h (by simp)

theorem strLen_eq_dataLength (buf : String) : strLen buf = (buf.data.length : Int) := rfl

theorem charAtS_exists {buf : String} {loc : Int} (h0 : 0 ≤ loc) (h1 : loc ≤ strLen buf) :
    ∃ c, charAtS buf loc = some c := by
  unfold charAtS
  rcases lt_or_eq_of_le h1 with hlt | heq
  · have hn : loc.toNat < buf.data.length := by
      have hd := strLen_eq_dataLength buf
      omega
    refine ⟨buf.data[loc.toNat], ?_⟩
    rw [if_neg (by omega), if_pos hlt]
    exact List.getElem?_eq_getElem hn
  · exact ⟨Char.ofNat 0, by rw [if_neg (by omega), if_neg (by omega), if_pos heq]⟩

theorem charAtS_ws_lt {buf : String} {loc : Int} {c : Char}
    (h : charAtS buf loc = some c) (hw : isWhitespaceC c = true) : loc < strLen buf := by
  rcases charAtS_some_bounds h with ⟨h0, h1⟩
  rcases lt_or_eq_of_le h1 with hlt | heq
  · exact hlt
  · exfalso
    unfold charAtS at h
    rw [if_neg (by omega), if_neg (by omega), if_pos heq] at h
    have hc : c = Char.ofNat 0 := by
      injection h with h
      exact h.symm
    subst hc
    exact absurd hw (by decide)

/-- C10: the constructor maps the configured `QualifierAlignment` option
string (default `"Left"`) to `QAS_Right` exactly when it equals `"Right"`
and to `QAS_Left` for every other value — including `"None"`, the default
`"Left"`, and any unrecognized string — so a constructed check's alignment
is never `QAS_None` and the check cannot be disabled through this option. -/
theorem c10_constructor_never_none (opts : List (String × String)) :
    qualifiersOrderConstruct opts =
      (if optionsGet opts ("QualifierAlignment") ("Left") = "Right" then
        QualifierAlignmentStyle.QAS_Right
      else QualifierAlignmentStyle.QAS_Left) ∧
    (qualifiersOrderConstruct opts = QualifierAlignmentStyle.QAS_Right ∨
      qualifiersOrderConstruct opts = QualifierAlignmentStyle.QAS_Left) := by
  constructor
  · unfold qualifiersOrderConstruct
    cases hb : optionsGet opts ("QualifierAlignment") ("Left") == "Right" with
    | false =>
      have h : ¬ optionsGet opts ("QualifierAlignment") ("Left") = "Right" := by
        intro he
        rw [← beq_iff_eq (a := optionsGet opts ("QualifierAlignment") ("Left"))] at he
        rw [hb] at he
        exact Bool.false_ne_true he
      rw [if_neg Bool.false_ne_true, if_neg h]
    | true =>
      have h : optionsGet opts ("QualifierAlignment") ("Left") = "Right" := eq_of_beq hb
      rw [if_pos rfl, if_pos h]
  · unfold qualifiersOrderConstruct
    split
    · exact Or.inl rfl
    · exact Or.inr rfl

/-- C6: with alignment policy `QAS_None`, the check never produces a finding
(and hence never an edit), for any buffer, type location and declaration
range.  Every run under `QAS_None` either returns cleanly with no finding,
or aborts: the policy switch's `default` branch is `llvm_unreachable`, so a
declaration whose located qualifier reaches the switch does not return
cleanly — but in no case is a finding or edit emitted. -/
theorem c6_policy_none_no_findings (buf : String) (tl : TypeLoc) (r : Int × Int) :
    checkQualifiers buf QualifierAlignmentStyle.QAS_None tl r = Except.ok none ∨
    ∃ e, checkQualifiers buf QualifierAlignmentStyle.QAS_None tl r = Except.error e := by
  by_cases hq : (getInnerTypeQualifiers tl).hasConst = false
  · left
    simp only [checkQualifiers]
    rw [if_pos hq]
  · cases hfq : findQualifier buf (getRangeBeforeType tl r.1) (getRangeAfterType buf tl r.2) ("const") with
    | error e =>
      right
      exact ⟨e, by simp only [checkQualifiers]; rw [if_neg hq]; simp only [hfq]⟩
    | ok o =>
      cases o with
      | none =>
        right
        exact ⟨"assert failed: ConstR.isValid()", by simp only [checkQualifiers]; rw [if_neg hq]; simp only [hfq]⟩
      | some cr0 =>
        cases hext : forwardSkipWhitespaceAndComments buf cr0.2 with
        | error e2 =>
          right
          exact ⟨e2, by simp only [checkQualifiers]; rw [if_neg hq]; simp only [hfq, hext]⟩
        | ok newEnd =>
          right
          exact ⟨"llvm_unreachable: Invalid QualifierAlignmentStyle",
            by simp only [checkQualifiers]; rw [if_neg hq]; simp only [hfq, hext]⟩

/-- C1: whenever a violation is found, the emitted edit plan is, in order:
an optional single-space insertion at the target only when the policy is
`Right` and the byte immediately preceding the target is not whitespace;
an insertion at the target of the text copied from the located qualifier
span (the span as located and then extended past trailing
whitespace/comments — an actual copy of buffer text, not a literal
keyword); an optional single-space insertion only when the policy is `Left`
and the byte immediately preceding the removal range's exclusive end is not
whitespace; and finally the removal of the located qualifier span, its
token-inclusive range obtained from the half-open range by dropping one
trailing byte.  Every insertion is planned before the removal and all
offsets refer to the same pre-edit buffer. -/
theorem c1_edit_plan_structure (buf : String) (tl : TypeLoc) (r cr0 : Int × Int) (newEnd : Int)
    (hq : (getInnerTypeQualifiers tl).hasConst = true)
    (hfind : findQualifier buf (getRangeBeforeType tl r.1) (getRangeAfterType buf tl r.2) ("const") =
      Except.ok (some cr0))
    (hext : forwardSkipWhitespaceAndComments buf cr0.2 = Except.ok newEnd) :
    (∀ cf cb, ¬ cr0.1 ≤ r.1 → charAtS buf (r.1 - 1) = some cf → charAtS buf (newEnd - 1) = some cb →
      checkQualifiers buf QualifierAlignmentStyle.QAS_Left tl r = Except.ok (some
        { anchor := r.1
          message := "wrong order of qualifiers"
          edits := [Edit.insert r.1 (extractStr buf cr0.1 newEnd)]
            ++ (if isWhitespaceC cb = true then [] else [Edit.insert r.1 " "])
            ++ [Edit.removeTokenRange (cr0.1, newEnd - 1)] })) ∧
    (∀ iLoc cf cb, skipWhitespaceF buf (getRangeAfterType buf tl r.2).1 = Except.ok iLoc →
      cr0.1 < iLoc → charAtS buf (iLoc - 1) = some cf → charAtS buf (newEnd - 1) = some cb →
      checkQualifiers buf QualifierAlignmentStyle.QAS_Right tl r = Except.ok (some
        { anchor := r.1
          message := "wrong order of qualifiers"
          edits := (if isWhitespaceC cf = true then [] else [Edit.insert iLoc " "])
            ++ [Edit.insert iLoc (extractStr buf cr0.1 newEnd)]
            ++ [Edit.removeTokenRange (cr0.1, newEnd - 1)] })) := by
  constructor
  · intro cf cb hnc hcf hcb
    simp only [checkQualifiers]
    rw [if_neg (by simp [hq])]
    simp only [hfind, hext]
    rw [if_neg (by omega)]
    simp only [emitFinding, hcf, hcb]
    by_cases hw : isWhitespaceC cb = true
    · simp [hw]
    · simp [hw]
  · intro iLoc cf cb hskip hlt hcf hcb
    simp only [checkQualifiers]
    rw [if_neg (by simp [hq])]
    simp only [hfind, hext, hskip]
    rw [if_neg (by omega)]
    simp only [emitFinding, hcf, hcb]
    by_cases hw : isWhitespaceC cf = true
    · simp [hw]
    · simp [hw]

/-- Witness for C1: concrete edit plans.  For `int const x;` under `Left`
the plan is insert-then-remove with no space insertions (the copied span
already ends in a space); for `const int* p;` under `Right` the plan is
space-insert, qualifier-insert, removal — insertions before the removal in
both cases. -/
theorem c1_witness :
    checkQualifiers bufIntConstX QualifierAlignmentStyle.QAS_Left tlIntConstX (1, 10) =
      Except.ok (some
        { anchor := 1
          message := "wrong order of qualifiers"
          edits := [Edit.insert 1 ("const "), Edit.removeTokenRange (5, 10)] }) ∧
    checkQualifiers bufConstIntPtr QualifierAlignmentStyle.QAS_Right tlConstIntPtr (1, 11) =
      Except.ok (some
        { anchor := 1
          message := "wrong order of qualifiers"
          edits := [Edit.insert 10 (" "), Edit.insert 10 ("const "),
            Edit.removeTokenRange (1, 6)] }) := by
  constructor
  · exact (c1_edit_plan_structure bufIntConstX tlIntConstX (1, 10) (5, 10) 11 rfl rfl rfl).1
      '\n' ' ' (by decide) rfl rfl
  · exact (c1_edit_plan_structure bufConstIntPtr tlConstIntPtr (1, 11) (1, 6) 7 rfl rfl rfl).2
      10 't' ' ' rfl (by decide) rfl rfl

/-- C2: for a declaration whose innermost type carries the tracked
qualifier, with the qualifier located (and its span extended): under policy
`Left`, when the located qualifier's start is at or before the declaration's
start, no finding and no edit is emitted; under policy `Right`, when the
qualifier's start is not strictly before the start of the after-type region
advanced past leading whitespace, no finding and no edit is emitted — an
already-canonical declaration yields zero findings. -/
theorem c2_canonical_no_finding (buf : String) (tl : TypeLoc) (r cr0 : Int × Int) (newEnd : Int)
    (hq : (getInnerTypeQualifiers tl).hasConst = true)
    (hfind : findQualifier buf (getRangeBeforeType tl r.1) (getRangeAfterType buf tl r.2) ("const") =
      Except.ok (some cr0))
    (hext : forwardSkipWhitespaceAndComments buf cr0.2 = Except.ok newEnd) :
    (cr0.1 ≤ r.1 → checkQualifiers buf QualifierAlignmentStyle.QAS_Left tl r = Except.ok none) ∧
    (∀ iLoc, skipWhitespaceF buf (getRangeAfterType buf tl r.2).1 = Except.ok iLoc →
      ¬ cr0.1 < iLoc →
      checkQualifiers buf QualifierAlignmentStyle.QAS_Right tl r = Except.ok none) := by
  constructor
  · intro hle
    simp only [checkQualifiers]
    rw [if_neg (by simp [hq])]
    simp only [hfind, hext]
    rw [if_pos (by omega)]
  · intro iLoc hskip hnlt
    simp only [checkQualifiers]
    rw [if_neg (by simp [hq])]
    simp only [hfind, hext, hskip]
    rw [if_pos (by omega)]

/-- Witness for C2: `const int x;` under `Left` (qualifier already at the
declaration start) and `int const x;` under `Right` (qualifier already at
the canonical right position) both yield no finding. -/
theorem c2_witness :
    checkQualifiers bufConstIntX QualifierAlignmentStyle.QAS_Left tlConstIntX (1, 10) =
      Except.ok none ∧
    checkQualifiers bufIntConstX QualifierAlignmentStyle.QAS_Right tlIntConstX (1, 10) =
      Except.ok none := by
  constructor
  · exact (c2_canonical_no_finding bufConstIntX tlConstIntX (1, 10) (1, 6) 7 rfl rfl rfl).1
      (by decide)
  · exact (c2_canonical_no_finding bufIntConstX tlIntConstX (1, 10) (5, 10) 11 rfl rfl rfl).2
      5 rfl (by decide)

/-- Counterexample for C4: for `int x;` with a type location whose qualifier
set structurally claims `const` while the text contains no `const` in either
search region, the check does not suppress the finding and return cleanly —
it fails the `assert(ConstR.isValid())` internal assertion (an abort of the
run in an assertions-enabled build), contradicting the claim that the
structural/textual disagreement is surfaced as a diagnostic-suppressing
condition for that declaration. -/
theorem c4_counterexample :
    (getInnerTypeQualifiers tlMismatch).hasConst = true ∧
    checkQualifiers bufIntX QualifierAlignmentStyle.QAS_Left tlMismatch (1, 4) =
      Except.error ("assert failed: ConstR.isValid()") := by
  constructor
  · rfl
  · rfl

/-- C4 (amended): the qualifier locator searches the left-of-type region
forward first — a left-region match is returned regardless of the right
region, and the right region is searched exactly when the left search
returned no match; but when the qualifier is structurally present and
neither region contains a textual match, `checkQualifiers` fails its
assertion that a qualifier range was located (aborting the run in an
assertions-enabled build) instead of suppressing the finding for that
declaration. -/
theorem c4_left_first_then_assert :
    (∀ buf lhs rhs q sp, findToken buf lhs q = Except.ok (some sp) →
      findQualifier buf lhs rhs q = Except.ok (some sp)) ∧
    (∀ buf lhs rhs q, findToken buf lhs q = Except.ok none →
      findQualifier buf lhs rhs q = findToken buf rhs q) ∧
    (∀ buf policy tl r, (getInnerTypeQualifiers tl).hasConst = true →
      findQualifier buf (getRangeBeforeType tl r.1) (getRangeAfterType buf tl r.2) ("const") =
        Except.ok none →
      checkQualifiers buf policy tl r = Except.error ("assert failed: ConstR.isValid()")) := by
  refine ⟨?_, ?_, ?_⟩
  · intro buf lhs rhs q sp h
    unfold findQualifier
    rw [h]
  · intro buf lhs rhs q h
    unfold findQualifier
    rw [h]
  · intro buf policy tl r hq hfq
    simp only [checkQualifiers]
    rw [if_neg (by simp [hq])]
    simp only [hfq]

/-- Witness for C4 (amended): the left-first search on the regions of
`const int x;` and the assert-abort on the mismatching `int x;`
declaration, at concrete inputs. -/
theorem c4_witness :
    findQualifier bufConstIntX (1, 7) (10, 10) ("const") = Except.ok (some (1, 6)) ∧
    checkQualifiers bufIntX QualifierAlignmentStyle.QAS_Right tlMismatch (1, 4) =
      Except.error ("assert failed: ConstR.isValid()") := by
  constructor
  · exact c4_left_first_then_assert.1 bufConstIntX (1, 7) (10, 10) ("const") (1, 6) rfl
  · exact c4_left_first_then_assert.2.2 bufIntX QualifierAlignmentStyle.QAS_Right tlMismatch
      (1, 4) rfl rfl

theorem getInnerPointeeLoc_fst (n : Nat) : ∀ (tl : TypeLoc) (acc : Option Int),
    pointerDepth tl = n → (getInnerPointeeLoc tl acc).1 = stripIndirections tl := by
  induction n with
  | zero =>
    intro tl acc h
    cases tl with
    | mk q rg sh =>
      cases sh with
      | named => simp [getInnerPointeeLoc, stripIndirections]
      | pointer p s => simp [pointerDepth] at h
      | reference p s => simp [pointerDepth] at h
      | elaborated inner => simp [getInnerPointeeLoc, stripIndirections]
      | templateSpec lA rA args => simp [getInnerPointeeLoc, stripIndirections]
  | succ m ih =>
    intro tl acc h
    cases tl with
    | mk q rg sh =>
      cases sh with
      | named => simp [getInnerPointeeLoc, stripIndirections]
      | pointer p s =>
        have hd : pointerDepth p = m := by
          simp only [pointerDepth] at h
          omega
        simp only [getInnerPointeeLoc, stripIndirections]
        exact ih p (some s) hd
      | reference p s =>
        have hd : pointerDepth p = m := by
          simp only [pointerDepth] at h
          omega
        simp only [getInnerPointeeLoc, stripIndirections]
        exact ih p (some s) hd
      | elaborated inner => simp [getInnerPointeeLoc, stripIndirections]
      | templateSpec lA rA args => simp [getInnerPointeeLoc, stripIndirections]

theorem getLast?_cons_eq (s : Int) (l : List Int) :
    (s :: l).getLast? = (match l.getLast? with
      | some t => some t
      | none => some s) := by
  cases l with
  | nil => rfl
  | cons b l2 =>
    rw [List.getLast?_cons_cons]
    cases hx : (b :: l2).getLast? with
    | none =>
      exfalso
      rw [List.getLast?_eq_none_iff] at hx
      exact List.cons_ne_nil b l2 hx
    | some t => rfl

theorem getInnerPointeeLoc_snd (n : Nat) : ∀ (tl : TypeLoc) (acc : Option Int),
    pointerDepth tl = n →
    (getInnerPointeeLoc tl acc).2 = (match innermostSigil tl with
      | some s => some s
      | none => acc) := by
  induction n with
  | zero =>
    intro tl acc h
    cases tl with
    | mk q rg sh =>
      cases sh with
      | named => simp [getInnerPointeeLoc, innermostSigil, sigilList]
      | pointer p s => simp [pointerDepth] at h
      | reference p s => simp [pointerDepth] at h
      | elaborated inner => simp [getInnerPointeeLoc, innermostSigil, sigilList]
      | templateSpec lA rA args => simp [getInnerPointeeLoc, innermostSigil, sigilList]
  | succ m ih =>
    intro tl acc h
    cases tl with
    | mk q rg sh =>
      cases sh with
      | named => simp [getInnerPointeeLoc, innermostSigil, sigilList]
      | pointer p s =>
        have hd : pointerDepth p = m := by
          simp only [pointerDepth] at h
          omega
        simp only [getInnerPointeeLoc, innermostSigil, sigilList]
        rw [ih p (some s) hd, getLast?_cons_eq]
        simp only [innermostSigil]
        cases (sigilList p).getLast? with
        | none => rfl
        | some t => rfl
      | reference p s =>
        have hd : pointerDepth p = m := by
          simp only [pointerDepth] at h
          omega
        simp only [getInnerPointeeLoc, innermostSigil, sigilList]
        rw [ih p (some s) hd, getLast?_cons_eq]
        simp only [innermostSigil]
        cases (sigilList p).getLast? with
        | none => rfl
        | some t => rfl
      | elaborated inner => simp [getInnerPointeeLoc, innermostSigil, sigilList]
      | templateSpec lA rA args => simp [getInnerPointeeLoc, innermostSigil, sigilList]

/-- C3: `getRangeAfterType` returns the span whose end is one byte before
the last (innermost) pointer/reference sigil when any indirection is present
(the `sigilList` accumulator of `getInnerPointeeLoc` overwrites the sigil at
each unwrapped layer, so the recorded one is the innermost), and otherwise
the passed `endLoc` — at every call site the declared name's start; and
whose start is one past the end of the token at the begin of the
indirection-stripped, elaboration-unwrapped inner type's range, except that
when that node is a template specialization the start is one past its
closing angle bracket. -/
theorem c3_range_after_type (buf : String) (tl : TypeLoc) (endLoc : Int) :
    getRangeAfterType buf tl endLoc =
      ((match (stripElaboration (stripIndirections tl)).shape with
        | TypeShape.templateSpec _ rAngle _ => rAngle + 1
        | _ => getLocForEndOfToken buf (stripElaboration (stripIndirections tl)).range.1),
       (match innermostSigil tl with
        | some s => s - 1
        | none => endLoc)) := by
  simp only [getRangeAfterType]
  rw [getInnerPointeeLoc_fst (pointerDepth tl) tl none rfl,
    getInnerPointeeLoc_snd (pointerDepth tl) tl none rfl]
  cases hsig : innermostSigil tl with
  | none => rfl
  | some s => rfl

/-- Counterexample for C7: for `ns::T const x;` clang attaches the `const`
to the QualType of the elaborated node, so the node reached after stripping
indirections carries the qualifier while the node reached after
additionally unwrapping the elaboration layer does not.  The check proceeds
and emits a finding even though the claim's condition — the qualifier set of
the node reached after stripping indirections *and then elaboration* — is
false, refuting the claimed "if and only if". -/
theorem c7_counterexample :
    (getInnerTypeQualifiers tlElabConst).hasConst = true ∧
    ((stripElaboration (getInnerPointeeLoc tlElabConst none).1).quals).hasConst = false ∧
    checkQualifiers bufElabConst QualifierAlignmentStyle.QAS_Left tlElabConst (1, 12) =
      Except.ok (some
        { anchor := 1
          message := "wrong order of qualifiers"
          edits := [Edit.insert 1 ("const "), Edit.removeTokenRange (7, 12)] }) := by
  refine ⟨rfl, rfl, rfl⟩

/-- C7 (amended): `has_tracked_qualifier` is true if and only if the node
reached by stripping all pointer/reference indirections — without unwrapping
any elaboration wrapper — has `const` in its local qualifier set; the
determination is purely structural (no textual re-derivation exists in the
check), so a `const` appearing only as text in the buffer, with no
structural qualifier bit, never yields a finding: whenever the structural
bit is absent the check returns no finding for every buffer. -/
theorem c7_structural_only :
    (∀ tl : TypeLoc,
      (getInnerTypeQualifiers tl).hasConst = (stripIndirections tl).quals.hasConst) ∧
    (∀ (buf : String) (policy : QualifierAlignmentStyle) (tl : TypeLoc) (r : Int × Int),
      (getInnerTypeQualifiers tl).hasConst = false →
      checkQualifiers buf policy tl r = Except.ok none) := by
  constructor
  · intro tl
    unfold getInnerTypeQualifiers
    rw [getInnerPointeeLoc_fst (pointerDepth tl) tl none rfl]
  · intro buf policy tl r hq
    simp only [checkQualifiers]
    rw [if_pos hq]

/-- Witness for C7 (amended): over the buffer of `const int x;` — whose text
plainly contains the word `const` — a type location with an empty structural
qualifier set produces no finding under either policy. -/
theorem c7_witness :
    (getInnerTypeQualifiers tlNoQuals).hasConst = (stripIndirections tlNoQuals).quals.hasConst ∧
    checkQualifiers bufConstIntX QualifierAlignmentStyle.QAS_Left tlNoQuals (1, 10) =
      Except.ok none := by
  constructor
  · exact c7_structural_only.1 tlNoQuals
  · exact c7_structural_only.2 bufConstIntX QualifierAlignmentStyle.QAS_Left tlNoQuals (1, 10) rfl

/-- C5: the template-specialization dispatcher is exactly "walk the argument
boundaries, then check each collected context".  `specTemplateArgContexts`
realizes the claim: type arguments are visited left to right; each
argument's right boundary except the last is the comma found by backward
token search from the next argument's begin, the last argument's right
boundary is the closing angle bracket; each following left boundary is one
past the previous resolved comma with whitespace and comments skipped
forward; and a non-type argument produces no context and no recursion while
still occupying its slot (the walk state passes over it unchanged, and its
begin still serves as the backward-search anchor of its predecessor).  The
theorem: whenever the boundary walk succeeds, the source's interleaved loop
equals running `checkQualifiers` over the walked contexts in order. -/
theorem c5_template_arg_walk (buf : String) (policy : QualifierAlignmentStyle) :
    ∀ (args : List TemplateArgLoc) (startLoc rAngle : Int) (ctxs : List (TypeLoc × (Int × Int))),
      specTemplateArgContexts buf args startLoc rAngle = Except.ok ctxs →
      checkSpecArgsAux buf policy args startLoc rAngle = runContexts buf policy ctxs := by
  intro args
  induction args with
  | nil =>
    intro s r ctxs h
    simp only [specTemplateArgContexts] at h
    injection h with h
    subst h
    simp [checkSpecArgsAux, runContexts]
  | cons a rest ih =>
    cases rest with
    | nil =>
      intro s r ctxs h
      cases a with
      | nonTypeArg b =>
        simp only [specTemplateArgContexts] at h
        injection h with h
        subst h
        simp [checkSpecArgsAux, runContexts]
      | typeArg tl =>
        simp only [specTemplateArgContexts] at h
        injection h with h
        subst h
        cases hc : checkQualifiers buf policy tl (s, r) with
        | error e => simp only [checkSpecArgsAux, runContexts, hc]
        | ok f => simp only [checkSpecArgsAux, runContexts, hc]
    | cons next rest2 =>
      intro s r ctxs h
      cases a with
      | nonTypeArg b =>
        simp only [specTemplateArgContexts] at h
        simp only [checkSpecArgsAux]
        exact ih s r ctxs h
      | typeArg tl =>
        simp only [specTemplateArgContexts] at h
        cases hfb : findTokenBackwards buf next.beginLoc (",") with
        | error e =>
          simp only [hfb] at h
          exact absurd h (by simp)
        | ok o =>
          cases o with
          | none =>
            simp only [hfb] at h
            exact absurd h (by simp)
          | some sr =>
            simp only [hfb] at h
            cases hfs : forwardSkipWhitespaceAndComments buf (sr.1 + 1) with
            | error e =>
              simp only [hfs] at h
              exact absurd h (by simp)
            | ok s2 =>
              simp only [hfs] at h
              cases hrec : specTemplateArgContexts buf (next :: rest2) s2 r with
              | error e =>
                simp only [hrec] at h
                exact absurd h (by simp)
              | ok ctxs2 =>
                simp only [hrec] at h
                injection h with h
                subst h
                simp only [checkSpecArgsAux, runContexts, hfb]
                cases hc : checkQualifiers buf policy tl (s, sr.1) with
                | error e => simp [hc]
                | ok f =>
                  simp only [hc, hfs]
                  rw [ih s2 r ctxs2 hrec]

/-- Witness for C5: for `vector<int const, char>` the boundary walk yields
exactly two contexts — the first bounded on the right by the comma at offset
17 (found backwards from the second argument's begin), the second starting
one past that comma after whitespace skipping (19) and bounded by the
closing angle bracket (23) — and the dispatcher equals the walked contexts
run in order. -/
theorem c5_witness :
    specTemplateArgContexts bufVector vectorArgs 8 23 =
      Except.ok [(tlVecInt, (8, 17)), (tlVecChar, (19, 23))] ∧
    checkSpecArgsAux bufVector QualifierAlignmentStyle.QAS_Left vectorArgs 8 23 =
      runContexts bufVector QualifierAlignmentStyle.QAS_Left
        [(tlVecInt, (8, 17)), (tlVecChar, (19, 23))] := by
  constructor
  · rfl
  · exact c5_template_arg_walk bufVector QualifierAlignmentStyle.QAS_Left vectorArgs 8 23
      [(tlVecInt, (8, 17)), (tlVecChar, (19, 23))] rfl

theorem getAsStringE_ok {buf : String} {sr : Int × Int} {t : String}
    (h : getAsStringE buf sr = Except.ok t) : t = extractStr buf sr.1 sr.2 := by
  unfold getAsStringE at h
  by_cases hc : 0 ≤ sr.1 ∧ sr.1 ≤ sr.2 ∧ sr.2 ≤ strLen buf
  · rw [if_pos hc] at h
    injection h with h
    exact h.symm
  · rw [if_neg hc] at h
    exact absurd h (by simp)

theorem findTokenGo_spelling (buf text : String) (endL : Int) : ∀ (fuel : Nat) (loc : Int)
    (sp : Int × Int), findTokenGo buf text endL fuel loc = Except.ok (some sp) →
    extractStr buf sp.1 sp.2 = text ∨
      (¬ extractStr buf sp.1 sp.2 = "" ∧ (extractStr buf sp.1 sp.2).back = '>' ∧
        (extractStr buf sp.1 sp.2).dropRight 1 = text) := by
  intro fuel
  induction fuel with
  | zero =>
    intro loc sp h
    simp only [findTokenGo] at h
    exact absurd h (by simp)
  | succ m ih =>
    intro loc sp h
    simp only [findTokenGo] at h
    by_cases hcond : loc < endL
    · rw [if_pos hcond] at h
      cases hws : skipWhitespaceF buf loc with
      | error e =>
        rw [hws] at h
        exact absurd h (by simp)
      | ok loc2 =>
        rw [hws] at h
        simp only [] at h
        cases hstr : getAsStringE buf (loc2, getLocForEndOfToken buf loc2) with
        | error e =>
          rw [hstr] at h
          exact absurd h (by simp)
        | ok t =>
          rw [hstr] at h
          simp only [] at h
          have ht : t = extractStr buf loc2 (getLocForEndOfToken buf loc2) := getAsStringE_ok hstr
          by_cases h1 : (t == text) = true
          · rw [if_pos h1] at h
            injection h with h
            injection h with h
            left
            rw [← h, ← ht]
            exact eq_of_beq h1
          · rw [if_neg h1] at h
            by_cases h2 : t.isEmpty = true
            · rw [if_pos h2] at h
              exact absurd h (by simp)
            · rw [if_neg h2] at h
              by_cases h3 : (t.back == '>' && t.dropRight 1 == text) = true
              · rw [if_pos h3] at h
                injection h with h
                injection h with h
                right
                have h3' : (t.back == '>') = true ∧ (t.dropRight 1 == text) = true := by
                  simp at h3
                  exact ⟨by simp [h3.1], by simp [h3.2]⟩
                refine ⟨?_, ?_, ?_⟩
                · rw [← h, ← ht]
                  intro he
                  rw [he] at h2
                  exact h2 rfl
                · rw [← h, ← ht]
                  exact eq_of_beq h3'.1
                · rw [← h, ← ht]
                  exact eq_of_beq h3'.2
              · rw [if_neg h3] at h
                exact ih (getLocForEndOfToken buf loc2) sp h
    · rw [if_neg hcond] at h
      exact absurd h (by simp)

theorem findTokenBackwardsGo_spelling (buf text : String) : ∀ (fuel : Nat) (loc : Int)
    (sp : Int × Int), findTokenBackwardsGo buf text fuel loc = Except.ok (some sp) →
    extractStr buf sp.1 sp.2 = text := by
  intro fuel
  induction fuel with
  | zero =>
    intro loc sp h
    simp only [findTokenBackwardsGo] at h
    exact absurd h (by simp)
  | succ m ih =>
    intro loc sp h
    simp only [findTokenBackwardsGo] at h
    cases hch : charAtS buf loc with
    | none =>
      rw [hch] at h
      exact absurd h (by simp)
    | some c =>
      rw [hch] at h
      simp only [] at h
      by_cases hw : isWhitespaceC c = true
      · rw [if_pos hw] at h
        exact ih (loc - 1) sp h
      · rw [if_neg hw] at h
        cases hstr : getAsStringE buf (getBeginningOfToken buf loc,
            getLocForEndOfToken buf (getBeginningOfToken buf loc)) with
        | error er =>
          rw [hstr] at h
          exact absurd h (by simp)
        | ok t =>
          rw [hstr] at h
          simp only [] at h
          have ht : t = extractStr buf (getBeginningOfToken buf loc)
              (getLocForEndOfToken buf (getBeginningOfToken buf loc)) := getAsStringE_ok hstr
          by_cases h1 : (t == text) = true
          · rw [if_pos h1] at h
            injection h with h
            injection h with h
            rw [← h, ← ht]
            exact eq_of_beq h1
          · rw [if_neg h1] at h
            exact ih (getBeginningOfToken buf loc - 1) sp h

/-- Counterexample for C8: searching the forward range `[0, 8)` of the
buffer `//const>\n` for the text `//const` locates the comment token spelled
`//const>` — a spelling different from the search text, accepted through
the closing-angle-bracket tolerance even though no caller requested any
special comparison mode (no such mode exists in the source), refuting the
claim that in the default mode both searches match only tokens whose
spelling equals the search text exactly. -/
theorem c8_counterexample :
    findToken ("//const>\n") (0, 8) ("//const") = Except.ok (some (0, 8)) ∧
    extractStr ("//const>\n") 0 8 = "//const>" ∧
    ¬ (("//const>" : String) = "//const") := by
  refine ⟨rfl, rfl, by decide⟩

/-- C8 (amended): the forward token search always applies the
suffix-tolerant comparison — every located token's spelling either equals
the search text or is the search text immediately followed by a closing
angle bracket, with no mode flag to request or disable this — while the
backward token search always compares spellings exactly: every token it
locates is spelled exactly as the search text. -/
theorem c8_forward_tolerant_backward_exact :
    (∀ (buf : String) (sr : Int × Int) (text : String) (sp : Int × Int),
      findToken buf sr text = Except.ok (some sp) →
      extractStr buf sp.1 sp.2 = text ∨
        (¬ extractStr buf sp.1 sp.2 = "" ∧ (extractStr buf sp.1 sp.2).back = '>' ∧
          (extractStr buf sp.1 sp.2).dropRight 1 = text)) ∧
    (∀ (buf : String) (loc : Int) (text : String) (sp : Int × Int),
      findTokenBackwards buf loc text = Except.ok (some sp) →
      extractStr buf sp.1 sp.2 = text) := by
  constructor
  · intro buf sr text sp h
    exact findTokenGo_spelling buf text sr.2 (buf.length + 2) sr.1 sp h
  · intro buf loc text sp h
    exact findTokenBackwardsGo_spelling buf text (buf.length + 2) loc sp h

/-- Witness for C8 (amended): a forward search locating an exact `const`
token and a backward search locating an exact `const` token, at concrete
inputs from `int const x;`. -/
theorem c8_witness :
    (extractStr bufIntConstX 5 10 = "const" ∨
      (¬ extractStr bufIntConstX 5 10 = "" ∧ (extractStr bufIntConstX 5 10).back = '>' ∧
        (extractStr bufIntConstX 5 10).dropRight 1 = "const")) ∧
    extractStr bufIntConstX 5 10 = "const" := by
  constructor
  · exact c8_forward_tolerant_backward_exact.1 bufIntConstX (4, 10) ("const") (5, 10) rfl
  · exact c8_forward_tolerant_backward_exact.2 bufIntConstX 10 ("const") (5, 10) rfl

theorem charAtS_neg {buf : String} {loc : Int} (h : loc < 0) : charAtS buf loc = none := by
  unfold charAtS
  rw [if_pos h]

theorem charAtS_ne_nul_lt {buf : String} {loc : Int} {c : Char}
    (h : charAtS buf loc = some c) (hc : ¬ c = Char.ofNat 0) : loc < strLen buf := by
  rcases charAtS_some_bounds h with ⟨h0, h1⟩
  rcases lt_or_eq_of_le h1 with hlt | heq
  · exact hlt
  · exfalso
    unfold charAtS at h
    rw [if_neg (by omega), if_neg (by omega), if_pos heq] at h
    injection h with h
    exact hc h.symm

theorem blockCommentRest_le : ∀ l : List Char, blockCommentRest l ≤ l.length := by
  intro l
  induction l with
  | nil => simp [blockCommentRest]
  | cons a t ih =>
    simp only [blockCommentRest]
    by_cases hc : a = '*' ∧ t.head? = some '/'
    · rw [if_pos hc]
      have : t ≠ [] := by
        intro he
        rw [he] at hc
        exact absurd hc.2 (by simp)
      have : 1 ≤ t.length := by
        cases t with
        | nil => exact absurd rfl this
        | cons b t2 => simp
      simp only [List.length_cons]
      omega
    · rw [if_neg hc]
      simp only [List.length_cons]
      omega

theorem commentLength_some {buf : String} {loc : Int} {n : Int}
    (h : commentLength buf loc = some n) :
    2 ≤ n ∧ loc + n ≤ strLen buf ∧ charAtS buf loc = some '/' := by
  unfold commentLength at h
  by_cases h1 : charAtS buf loc = some '/' ∧ charAtS buf (loc + 1) = some '/'
  · rw [if_pos h1] at h
    injection h with h
    have hlt : loc + 1 < strLen buf := charAtS_ne_nul_lt h1.2 (by decide)
    have h0 : 0 ≤ loc := (charAtS_some_bounds h1.1).1
    have hdl : strLen buf = (buf.data.length : Int) := rfl
    have htw := List.Sublist.length_le
      (List.takeWhile_sublist (l := buf.data.drop (loc.toNat + 2)) (fun c => c ≠ '\n'))
    have hdrop : (buf.data.drop (loc.toNat + 2)).length = buf.data.length - (loc.toNat + 2) :=
      List.length_drop _ _
    constructor
    · omega
    · constructor
      · omega
      · exact h1.1
  · rw [if_neg h1] at h
    by_cases h2 : charAtS buf loc = some '/' ∧ charAtS buf (loc + 1) = some '*'
    · rw [if_pos h2] at h
      injection h with h
      have hlt : loc + 1 < strLen buf := charAtS_ne_nul_lt h2.2 (by decide)
      have h0 : 0 ≤ loc := (charAtS_some_bounds h2.1).1
      have hdl : strLen buf = (buf.data.length : Int) := rfl
      have hbl := blockCommentRest_le (buf.data.drop (loc.toNat + 2))
      have hdrop : (buf.data.drop (loc.toNat + 2)).length = buf.data.length - (loc.toNat + 2) :=
        List.length_drop _ _
      refine ⟨by omega, by omega, h2.1⟩
    · rw [if_neg h2] at h
      exact absurd h (by simp)

theorem measureTokenFrom_of_comment {buf : String} {loc : Int} {n : Int}
    (h : commentLength buf loc = some n) : measureTokenFrom buf loc = n := by
  have hs := (commentLength_some h).2.2
  unfold measureTokenFrom
  rw [hs]
  simp only []
  rw [if_neg (by decide), if_neg (by decide), h]

theorem getBeginningOfTokenGo_ident (buf : String) : ∀ (fuel : Nat) (loc : Int),
    getBeginningOfTokenGo buf fuel loc = loc ∨
    ∃ c, charAtS buf (getBeginningOfTokenGo buf fuel loc) = some c ∧ isIdentChar c = true := by
  intro fuel
  induction fuel with
  | zero =>
    intro loc
    exact Or.inl rfl
  | succ m ih =>
    intro loc
    simp only [getBeginningOfTokenGo]
    split
    · rename_i c c2 heq1 heq2
      by_cases hid : isIdentChar c = true ∧ isIdentChar c2 = true
      · rw [if_pos hid]
        rcases ih (loc - 1) with heq | hex
        · rw [heq]
          exact Or.inr ⟨c2, heq2, hid.2⟩
        · exact Or.inr hex
      · rw [if_neg hid]
        exact Or.inl rfl
    · exact Or.inl rfl

theorem getTokenKind_comment {buf : String} {loc : Int}
    (h : getTokenKind buf loc = TokKind.comment) : ∃ n, commentLength buf loc = some n := by
  simp only [getTokenKind] at h
  cases hcl : commentLength buf (getBeginningOfToken buf loc) with
  | none =>
    exfalso
    rw [hcl] at h
    by_cases hb : strLen buf ≤ getBeginningOfToken buf loc
    · rw [if_pos hb] at h
      exact absurd h (by simp)
    · rw [if_neg hb] at h
      exact absurd h (by simp)
  | some n =>
    rcases getBeginningOfTokenGo_ident buf (buf.length + 2) loc with heq | ⟨c, hc, hid⟩
    · refine ⟨n, ?_⟩
      rw [← heq]
      exact hcl
    · exfalso
      have hs := (commentLength_some hcl).2.2
      have hs2 : some c = some '/' := hc.symm.trans hs
      injection hs2 with hs3
      rw [hs3] at hid
      exact absurd hid (by decide)

theorem skipWhitespaceFGo_ok_bounds (buf : String) : ∀ (fuel : Nat) (loc l : Int),
    skipWhitespaceFGo buf fuel loc = Except.ok l → loc ≤ l ∧ 0 ≤ l ∧ l ≤ strLen buf := by
  intro fuel
  induction fuel with
  | zero =>
    intro loc l h
    simp only [skipWhitespaceFGo] at h
    exact absurd h (by simp)
  | succ m ih =>
    intro loc l h
    simp only [skipWhitespaceFGo] at h
    cases hc : charAtS buf loc with
    | none =>
      rw [hc] at h
      exact absurd h (by simp)
    | some c =>
      rw [hc] at h
      simp only [] at h
      by_cases hw : isWhitespaceC c = true
      · rw [if_pos hw] at h
        have := ih (loc + 1) l h
        exact ⟨by omega, this.2⟩
      · rw [if_neg hw] at h
        injection h with h
        subst h
        have := charAtS_some_bounds hc
        exact ⟨le_refl loc, this⟩

theorem skipWhitespaceFGo_success (buf : String) : ∀ (fuel : Nat) (loc : Int),
    0 ≤ loc → loc ≤ strLen buf → (strLen buf - loc).toNat + 1 ≤ fuel →
    ∃ l, skipWhitespaceFGo buf fuel loc = Except.ok l := by
  intro fuel
  induction fuel with
  | zero =>
    intro loc h0 h1 h2
    omega
  | succ m ih =>
    intro loc h0 h1 h2
    obtain ⟨c, hc⟩ := charAtS_exists h0 h1
    simp only [skipWhitespaceFGo, hc]
    by_cases hw : isWhitespaceC c = true
    · rw [if_pos hw]
      have hlt : loc < strLen buf := charAtS_ws_lt hc hw
      exact ih (loc + 1) (by omega) (by omega) (by omega)
    · rw [if_neg hw]
      exact ⟨loc, rfl⟩

theorem skipWhitespaceF_ok_bounds {buf : String} {loc l : Int}
    (h : skipWhitespaceF buf loc = Except.ok l) : loc ≤ l ∧ 0 ≤ l ∧ l ≤ strLen buf :=
  skipWhitespaceFGo_ok_bounds buf (buf.length + 2) loc l h

theorem skipWhitespaceF_success {buf : String} {loc : Int} (h0 : 0 ≤ loc)
    (h1 : loc ≤ strLen buf) : ∃ l, skipWhitespaceF buf loc = Except.ok l := by
  apply skipWhitespaceFGo_success buf (buf.length + 2) loc h0 h1
  have hdl : strLen buf = (buf.data.length : Int) := rfl
  have hll : buf.length = buf.data.length := rfl
  omega

theorem forwardSkipGo_success (buf : String) : ∀ (fuel : Nat) (loc : Int),
    0 ≤ loc → loc ≤ strLen buf → (strLen buf - loc).toNat + 1 ≤ fuel →
    ∃ l, forwardSkipGo buf fuel loc = Except.ok l ∧ 0 ≤ l ∧ l ≤ strLen buf := by
  intro fuel
  induction fuel with
  | zero =>
    intro loc h0 h1 h2
    omega
  | succ m ih =>
    intro loc h0 h1 h2
    obtain ⟨l1, hws⟩ := skipWhitespaceF_success h0 h1
    obtain ⟨hle, hl0, hllen⟩ := skipWhitespaceF_ok_bounds hws
    simp only [forwardSkipGo, hws]
    by_cases hk : (getTokenKind buf l1 == TokKind.comment) = true
    · rw [if_pos hk]
      obtain ⟨n, hcl⟩ := getTokenKind_comment (eq_of_beq hk)
      obtain ⟨hn2, hnlen, hslash⟩ := commentLength_some hcl
      have hm : getLocForEndOfToken buf l1 = l1 + n := by
        rw [getLocForEndOfToken, measureTokenFrom_of_comment hcl]
      rw [hm]
      exact ih (l1 + n) (by omega) (by omega) (by omega)
    · rw [if_neg hk]
      exact ⟨l1, rfl, hl0, hllen⟩

theorem findTokenBackwardsGo_allws (buf text : String) : ∀ (fuel : Nat) (loc : Int),
    0 ≤ loc → loc ≤ strLen buf →
    (∀ i : Int, 0 ≤ i → i ≤ loc → ∃ c, charAtS buf i = some c ∧ isWhitespaceC c = true) →
    loc.toNat + 2 ≤ fuel →
    findTokenBackwardsGo buf text fuel loc = Except.error ("UB: read outside buffer") := by
  intro fuel
  induction fuel with
  | zero =>
    intro loc h0 h1 hws h2
    omega
  | succ m ih =>
    intro loc h0 h1 hws h2
    obtain ⟨c, hc, hw⟩ := hws loc h0 (le_refl loc)
    simp only [findTokenBackwardsGo, hc]
    rw [if_pos hw]
    by_cases hz : loc = 0
    · subst hz
      cases m with
      | zero => omega
      | succ m2 =>
        simp only [findTokenBackwardsGo]
        rw [charAtS_neg (by omega)]
    · apply ih (loc - 1) (by omega) (by omega) ?_ (by omega)
      intro i hi0 hi1
      exact hws i hi0 (by omega)

/-- Counterexample for C9: starting the backward token search of
`findTokenBackwards` at offset 1 of the two-space buffer, the backward
whitespace skip steps over both spaces to offset −1 and reads a byte
outside the source buffer — the loop is not bounds-checked at the buffer
start, refuting the claim that the skipping loops never read a character at
an offset outside the buffer. -/
theorem c9_counterexample :
    findTokenBackwards ("  ") 1 ("x") = Except.error ("UB: read outside buffer") := rfl

/-- C9 (amended): the forward skipping loops are bounded by the NUL
terminator clang places one past the end of the buffer — started at any
offset inside `[0, length]`, `forwardSkipWhitespaceAndComments` and the raw
whitespace skip succeed and stay inside `[0, length]` — but the backward
skip in `findTokenBackwards` performs no bounds check at the buffer start:
whenever whitespace extends from the start position down to offset 0, it
steps to negative offsets and reads outside the buffer (the
`assert(Loc.isValid())` calls do not correspond to the buffer start and
never fire in clang's location arithmetic). -/
theorem c9_forward_bounded_backward_not :
    (∀ (buf : String) (loc : Int), 0 ≤ loc → loc ≤ strLen buf →
      ∃ l, forwardSkipWhitespaceAndComments buf loc = Except.ok l ∧ 0 ≤ l ∧ l ≤ strLen buf) ∧
    (∀ (buf : String) (loc : Int), 0 ≤ loc → loc ≤ strLen buf →
      ∃ l, skipWhitespaceF buf loc = Except.ok l ∧ loc ≤ l ∧ l ≤ strLen buf) ∧
    (∀ (buf text : String) (loc : Int), 0 ≤ loc → loc ≤ strLen buf →
      (∀ i : Int, 0 ≤ i → i ≤ loc → ∃ c, charAtS buf i = some c ∧ isWhitespaceC c = true) →
      findTokenBackwards buf loc text = Except.error ("UB: read outside buffer")) := by
  refine ⟨?_, ?_, ?_⟩
  · intro buf loc h0 h1
    apply forwardSkipGo_success buf (buf.length + 2) loc h0 h1
    have hdl : strLen buf = (buf.data.length : Int) := rfl
    have hll : buf.length = buf.data.length := rfl
    omega
  · intro buf loc h0 h1
    obtain ⟨l, hl⟩ := skipWhitespaceF_success h0 h1
    obtain ⟨ha, hb, hc⟩ := skipWhitespaceF_ok_bounds hl
    exact ⟨l, hl, ha, hc⟩
  · intro buf text loc h0 h1 hws
    apply findTokenBackwardsGo_allws buf text (buf.length + 2) loc h0 h1 hws
    have hdl : strLen buf = (buf.data.length : Int) := rfl
    have hll : buf.length = buf.data.length := rfl
    omega

/-- Witness for C9 (amended): the forward skip crosses whitespace and a
block comment of `a /* c */ b` and stops inside the buffer; the raw
whitespace skip of `  x` stops at the `x`; and a backward search started on
the all-whitespace prefix of ` x` runs off the buffer start. -/
theorem c9_witness :
    (∃ l, forwardSkipWhitespaceAndComments ("a /* c */ b") 1 = Except.ok l ∧ 0 ≤ l ∧
      l ≤ strLen ("a /* c */ b")) ∧
    (∃ l, skipWhitespaceF ("  x") 0 = Except.ok l ∧ (0 : Int) ≤ l ∧ l ≤ strLen ("  x")) ∧
    findTokenBackwards (" x") 0 ("y") = Except.error ("UB: read outside buffer") := by
  refine ⟨?_, ?_, ?_⟩
  · exact c9_forward_bounded_backward_not.1 ("a /* c */ b") 1 (by decide) (by decide)
  · exact c9_forward_bounded_backward_not.2.1 ("  x") 0 (by decide) (by decide)
  · apply c9_forward_bounded_backward_not.2.2 (" x") ("y") 0 (by decide) (by decide)
    intro i hi0 hi1
    have hi : i = 0 := le_antisymm hi1 hi0
    subst hi
    exact ⟨' ', rfl, rfl⟩
